import Mathlib

/-!
# Verification of the spowtd staging-and-grid-alignment pipeline

Shallow embedding of `spowtd/load.py`: timestamp normalization
(`generate_timestamped_rows`), grid determination (`populate_grid_time`),
rainfall binning (`populate_rainfall_intensity`) and water-level
interpolation (`populate_water_level`), together with theorems checking
the natural-language specification against this embedding.

Epochs are integers (seconds); measured values are rationals.
-/

namespace Spowtd

instance {ε α : Type} [DecidableEq ε] [DecidableEq α] :
    DecidableEq (Except ε α)
  | Except.error e, Except.error e' =>
      if h : e = e' then Decidable.isTrue (by rw [h])
      else Decidable.isFalse (by intro hc; cases hc; exact h rfl)
  | Except.error _, Except.ok _ => Decidable.isFalse (by intro hc; cases hc)
  | Except.ok _, Except.error _ => Decidable.isFalse (by intro hc; cases hc)
  | Except.ok a, Except.ok a' =>
      if h : a = a' then Decidable.isTrue (by rw [h])
      else Decidable.isFalse (by intro hc; cases hc; exact h rfl)

/-- A staged sample: `(epoch, value)` as held in a staging table. -/
structure Sample where
  epoch : Int
  value : ℚ
deriving DecidableEq

/-- An aligned rainfall interval row `(from_epoch, thru_epoch, intensity)`. -/
structure Interval where
  from_epoch : Int
  thru_epoch : Int
  intensity : ℚ
deriving DecidableEq

/-- Epochs of a list of staged samples, in list order. -/
def epochs (l : List Sample) : List Int := l.map (·.epoch)

/-- Ordering of samples by epoch. -/
def sampleLE (a b : Sample) : Prop := a.epoch ≤ b.epoch

instance : DecidableRel sampleLE := fun a b => by
  unfold sampleLE; infer_instance

instance : IsTotal Sample sampleLE := ⟨fun a b => le_total a.epoch b.epoch⟩

instance : IsTrans Sample sampleLE := ⟨fun _ _ _ h h' => le_trans h h'⟩

/-- Modelled from the spec: the staging store (SQLite plus `schema.sql`,
which is not part of the sources here) returns the staged samples of a
series ordered by epoch (`select_all(series_name) -> ordered-by-epoch
sequence of samples`, spec section 4.2), whatever order they were
appended in. -/
def select_all (l : List Sample) : List Sample :=
  List.insertionSort sampleLE l

/-- The rainfall-staging epochs lying in the water-level min/max window:
the SQL in `populate_grid_time` joins `rainfall_intensity_staging` against
`min(epoch)`/`max(epoch)` of `water_level_staging`.  If the water-level
staging is empty, the SQL min/max are NULL and the join yields no rows. -/
def window_filter (rain water : List Sample) : List Int :=
  match (epochs water).min?, (epochs water).max? with
  | some mn, some mx => (epochs rain).filter (fun e => mn ≤ e ∧ e ≤ mx)
  | _, _ => []

/-- The candidate grid: the windowed rainfall epochs, `ORDER BY epoch`. -/
def candidate_grid (rain water : List Sample) : List Int :=
  List.insertionSort (· ≤ ·) (window_filter rain water)

/-- Consecutive differences, as `np.diff`. -/
def diffs : List Int → List Int
  | a :: b :: rest => (b - a) :: diffs (b :: rest)
  | _ => []

/-- `sorted(set(np.diff(time_grid)))` from `populate_grid_time`. -/
def delta_t (rain water : List Sample) : List Int :=
  List.insertionSort (· ≤ ·) (diffs (candidate_grid rain water)).dedup

/-- `time_grid[-2]`: the second-to-last grid point. -/
def second_last (l : List Int) : Int := l.dropLast.getLastD 0

/-- `populate_grid_time`: determine the uniform grid and time step.
Fails (the `ValueError` for nonuniform time steps) unless the set of
distinct consecutive differences of the candidate grid is a singleton;
on success appends one closing point `candidate_grid[-1] + step`. -/
def populate_grid_time (rain water : List Sample) :
    Except (List Int) (List Int × Int) :=
  if (delta_t rain water).length = 1 then
    let step := (delta_t rain water).headD 0
    let c := candidate_grid rain water
    Except.ok (c ++ [c.getLastD 0 + step], step)
  else
    Except.error (delta_t rain water)

/-- `populate_rainfall_intensity`: SQL join of the rainfall staging with
the grid-time table on equal epoch, keeping rows with
`ris.epoch <= time_grid[-2]`; each matching pair of rows emits
`(epoch, epoch + step, intensity)`.  Join multiplicity is preserved. -/
def populate_rainfall_intensity (rain : List Sample) (grid : List Int)
    (step : Int) : List Interval :=
  rain.flatMap (fun s =>
    if s.epoch ≤ second_last grid then
      (grid.filter (fun e => e = s.epoch)).map
        (fun _ => ⟨s.epoch, s.epoch + step, s.value⟩)
    else [])

/-- `np.interp` on an epoch-sorted knot list, in exact arithmetic: below
the first knot and above the last knot the boundary value is returned
(flat extrapolation); between knots, linear interpolation; at a knot the
knot's value (for tied knots, the rightmost). -/
def interp (x : ℚ) : List (ℚ × ℚ) → ℚ
  | [] => 0
  | [(_, f0)] => f0
  | (x0, f0) :: (x1, f1) :: rest =>
    if x < x0 then f0
    else if x < x1 then f0 + (f1 - f0) * (x - x0) / (x1 - x0)
    else interp x ((x1, f1) :: rest)

/-- `populate_water_level`: interpolate the staged water level (as
returned by the staging store, ordered by epoch) onto `time_grid[:-1]`. -/
def populate_water_level (water : List Sample) (grid : List Int) :
    List (Int × ℚ) :=
  grid.dropLast.map (fun e => (e, interp (e : ℚ)
    ((select_all water).map (fun s => ((s.epoch : ℚ), s.value)))))

/-- The aligned outputs of one pipeline run. -/
structure AlignedOutput where
  grid : List Int
  step : Int
  rainfall : List Interval
  waterLevel : List (Int × ℚ)
deriving DecidableEq

/-- The grid-alignment part of `load_data`: grid determination, then
rainfall binning and water-level interpolation.  A grid failure aborts
the run before any aligned output is produced. -/
def run_pipeline (rain water : List Sample) :
    Except (List Int) AlignedOutput :=
  match populate_grid_time rain water with
  | Except.error e => Except.error e
  | Except.ok (g, s) =>
      Except.ok ⟨g, s, populate_rainfall_intensity rain g s,
        populate_water_level water g⟩

/-- Scenario A rainfall staging. -/
def rainA : List Sample := [⟨0, 0⟩, ⟨3600, 5⟩, ⟨7200, 10⟩]

/-- Scenario A water-level staging. -/
def waterA : List Sample := [⟨-1800, 0⟩, ⟨9000, 1⟩]

/-- Scenario B rainfall staging: nonuniform epochs. -/
def rainB : List Sample := [⟨0, 0⟩, ⟨3600, 5⟩, ⟨10800, 10⟩]

/-- Scenario B water-level staging, covering the rainfall epochs. -/
def waterB : List Sample := [⟨-1800, 0⟩, ⟨20000, 1⟩]

/-! ## Helper lemmas -/

theorem sorted_candidate (r w : List Sample) :
    (candidate_grid r w).Sorted (· ≤ ·) :=
  List.sorted_insertionSort _ _

theorem perm_candidate (r w : List Sample) :
    List.Perm (candidate_grid r w) (window_filter r w) :=
  List.perm_insertionSort _ _

theorem diffs_eq_nil {l : List Int} (h : l.length ≤ 1) : diffs l = [] := by
  match l with
  | [] => rfl
  | [_] => rfl
  | _ :: _ :: _ => simp at h

theorem mem_delta_iff {r w : List Sample} {x : Int} :
    x ∈ delta_t r w ↔ x ∈ diffs (candidate_grid r w) := by
  unfold delta_t
  rw [List.mem_insertionSort, List.mem_dedup]

/-- Inversion of a successful grid determination: the set of distinct
consecutive differences is the singleton of the step, and the grid is the
candidate grid with the closing point appended. -/
theorem grid_ok_inv {rain water : List Sample} {g : List Int} {s : Int}
    (h : populate_grid_time rain water = Except.ok (g, s)) :
    delta_t rain water = [s] ∧
    g = candidate_grid rain water ++
      [(candidate_grid rain water).getLastD 0 + s] := by
  unfold populate_grid_time at h
  by_cases hl : (delta_t rain water).length = 1
  · rw [if_pos hl] at h
    simp only [Except.ok.injEq, Prod.mk.injEq] at h
    obtain ⟨hg, hs⟩ := h
    obtain ⟨d, hd⟩ := List.length_eq_one.1 hl
    rw [hd] at hs hg ⊢
    simp only [List.headD_cons] at hs hg
    rw [hs] at hg
    exact ⟨by rw [hs], hg.symm⟩
  · rw [if_neg hl] at h
    cases h

theorem grid_error_of_length {rain water : List Sample}
    (h : (delta_t rain water).length ≠ 1) :
    populate_grid_time rain water = Except.error (delta_t rain water) := by
  unfold populate_grid_time
  rw [if_neg h]

/-- Every consecutive difference of the candidate grid equals the step. -/
theorem diffs_all_eq {r w : List Sample} {d : Int} (h : delta_t r w = [d]) :
    ∀ x ∈ diffs (candidate_grid r w), x = d := by
  intro x hx
  have hm : x ∈ delta_t r w := mem_delta_iff.2 hx
  rw [h] at hm
  simpa using hm

theorem delta_mem_diffs {r w : List Sample} {d : Int}
    (h : delta_t r w = [d]) : d ∈ diffs (candidate_grid r w) := by
  apply mem_delta_iff.1
  rw [h]
  simp

theorem chain'_of_diffs {l : List Int} {d : Int}
    (h : ∀ x ∈ diffs l, x = d) :
    List.Chain' (fun a b => a + d = b) l := by
  induction l with
  | nil => simp
  | cons a t ih =>
    cases t with
    | nil => simp
    | cons b r =>
      rw [List.chain'_cons]
      constructor
      · have : b - a = d := h _ (by simp [diffs])
        omega
      · exact ih (fun x hx => h x (by simp [diffs]; right; exact hx))

theorem diffs_nonneg {l : List Int} (h : l.Sorted (· ≤ ·)) :
    ∀ x ∈ diffs l, 0 ≤ x := by
  induction l with
  | nil => simp [diffs]
  | cons a t ih =>
    cases t with
    | nil => simp [diffs]
    | cons b r =>
      intro x hx
      rw [List.sorted_cons] at h
      rw [show diffs (a :: b :: r) = (b - a) :: diffs (b :: r) from rfl,
        List.mem_cons] at hx
      rcases hx with rfl | hx
      · have := h.1 b (by simp)
        omega
      · exact ih h.2 x hx

theorem diffs_pos {l : List Int} (h : l.Sorted (· ≤ ·))
    (hn : l.Nodup) : ∀ x ∈ diffs l, 0 < x := by
  induction l with
  | nil => simp [diffs]
  | cons a t ih =>
    cases t with
    | nil => simp [diffs]
    | cons b r =>
      intro x hx
      rw [List.sorted_cons] at h
      rw [List.nodup_cons] at hn
      rw [show diffs (a :: b :: r) = (b - a) :: diffs (b :: r) from rfl,
        List.mem_cons] at hx
      rcases hx with rfl | hx
      · have h1 := h.1 b (by simp)
        have h2 : a ≠ b := fun hab => hn.1 (by simp [hab])
        omega
      · exact ih h.2 hn.2 x hx

theorem candidate_two_le_length {r w : List Sample} {d : Int}
    (h : delta_t r w = [d]) : 2 ≤ (candidate_grid r w).length := by
  by_contra hc
  push_neg at hc
  have h0 : diffs (candidate_grid r w) = [] := diffs_eq_nil (by omega)
  have : delta_t r w = [] := by
    unfold delta_t
    rw [h0]
    rfl
  rw [h] at this
  cases this

theorem candidate_ne_nil {r w : List Sample} {d : Int}
    (h : delta_t r w = [d]) : candidate_grid r w ≠ [] := by
  have := candidate_two_le_length h
  intro hc
  rw [hc] at this
  simp at this

theorem sorted_mem_le_getLastD {l : List Int} (h : l.Sorted (· ≤ ·)) :
    ∀ x ∈ l, x ≤ l.getLastD 0 := by
  induction l with
  | nil => simp
  | cons a t ih =>
    intro x hx
    rw [List.sorted_cons] at h
    cases t with
    | nil =>
      simp only [List.mem_singleton] at hx
      simp [hx]
    | cons b r =>
      rw [List.getLastD_cons]
      rcases List.mem_cons.1 hx with rfl | hx
      · calc x ≤ b := h.1 b (by simp)
          _ ≤ (b :: r).getLastD x := by
            have := ih h.2 b (by simp)
            rw [List.getLastD_cons] at this ⊢
            exact this
      · have := ih h.2 x hx
        rw [List.getLastD_cons] at this ⊢
        exact this

/-- The step of a successful grid determination is nonnegative. -/
theorem step_nonneg {r w : List Sample} {d : Int}
    (h : delta_t r w = [d]) : 0 ≤ d :=
  diffs_nonneg (sorted_candidate r w) d (delta_mem_diffs h)

/-! ## C1: Scenario A -/

/-- C1: On Scenario A — rainfall staged at epochs 0, 3600, 7200 with
intensities 0, 5, 10 and water level staged at epochs -1800 and 9000 —
the grid builder produces grid `[0, 3600, 7200, 10800]` with step 3600,
and the aligned rainfall intervals are exactly `(0,3600,0)`,
`(3600,7200,5)`, `(7200,10800,10)`. -/
theorem c1_scenario_a :
    populate_grid_time rainA waterA =
      Except.ok ([0, 3600, 7200, 10800], 3600) ∧
    populate_rainfall_intensity rainA [0, 3600, 7200, 10800] 3600 =
      [⟨0, 3600, 0⟩, ⟨3600, 7200, 5⟩, ⟨7200, 10800, 10⟩] := by
  constructor
  · decide
  · decide

/-! ## C2: nonuniform time step fails -/

/-- C2: Whenever the set of distinct consecutive differences of the
candidate grid has more than one element, the grid builder fails with the
nonuniform-time-step error naming exactly that set of differences, the
whole pipeline aborts with the same error, and no grid is produced; in
particular Scenario B (rainfall epochs 0, 3600, 10800 inside the
water-level window) fails with differences `[3600, 7200]`. -/
theorem c2_nonuniform_step_fails :
    (∀ rain water : List Sample, 1 < (delta_t rain water).length →
      populate_grid_time rain water = Except.error (delta_t rain water) ∧
      run_pipeline rain water = Except.error (delta_t rain water)) ∧
    populate_grid_time rainB waterB = Except.error [3600, 7200] := by
  constructor
  · intro rain water h
    have he : populate_grid_time rain water =
        Except.error (delta_t rain water) :=
      grid_error_of_length (by omega)
    refine ⟨he, ?_⟩
    unfold run_pipeline
    rw [he]
  · decide

/-- Witness for C2 at Scenario B. -/
theorem c2_witness :
    1 < (delta_t rainB waterB).length ∧
    populate_grid_time rainB waterB = Except.error (delta_t rainB waterB) ∧
    run_pipeline rainB waterB = Except.error (delta_t rainB waterB) :=
  ⟨by decide, c2_nonuniform_step_fails.1 rainB waterB (by decide)⟩

/-! ## C10: empty or singleton candidate grid -/

/-- C10: When the candidate grid is empty or a single epoch, the set of
consecutive differences is empty, so the grid builder raises the very
same nonuniform-time-step error (with an empty set of differences) and
the run aborts with no grid, rainfall-interval or water-level output;
there is no distinct empty-overlap error. -/
theorem c10_degenerate_candidate_fails :
    ∀ rain water : List Sample, (candidate_grid rain water).length ≤ 1 →
      populate_grid_time rain water = Except.error [] ∧
      run_pipeline rain water = Except.error [] := by
  intro rain water h
  have h0 : delta_t rain water = [] := by
    unfold delta_t
    rw [diffs_eq_nil h]
    rfl
  have he : populate_grid_time rain water = Except.error [] := by
    have hne1 : (delta_t rain water).length ≠ 1 := by
      rw [h0]
      simp
    have he0 := grid_error_of_length hne1
    rw [h0] at he0
    exact he0
  refine ⟨he, ?_⟩
  unfold run_pipeline
  rw [he]

/-- Witness for C10: a rainfall series disjoint from the water-level
window gives an empty candidate grid and the nonuniform-step error. -/
theorem c10_witness :
    (candidate_grid [⟨100, 1⟩] [⟨0, 0⟩, ⟨50, 0⟩]).length ≤ 1 ∧
    populate_grid_time [⟨100, 1⟩] [⟨0, 0⟩, ⟨50, 0⟩] = Except.error [] ∧
    run_pipeline [⟨100, 1⟩] [⟨0, 0⟩, ⟨50, 0⟩] = Except.error [] :=
  ⟨by decide, c10_degenerate_candidate_fails _ _ (by decide)⟩

/-! ## C3: grid construction on success -/

/-- C3: On every successful grid determination, the candidate grid is
exactly the rainfall-staging epochs lying between the water-level min and
max epochs, sorted ascending (stated as: it is sorted and is a
permutation of the filtered epoch list), the returned grid is the
candidate grid with the single extra point `candidate_grid[-1] + step`
appended, and the grid length is the count of windowed rainfall epochs
plus one. -/
theorem c3_grid_is_windowed_epochs (rain water : List Sample)
    (g : List Int) (s mn mx : Int)
    (hg : populate_grid_time rain water = Except.ok (g, s))
    (hmn : (epochs water).min? = some mn)
    (hmx : (epochs water).max? = some mx) :
    (candidate_grid rain water).Sorted (· ≤ ·) ∧
    List.Perm (candidate_grid rain water)
      ((epochs rain).filter (fun e => mn ≤ e ∧ e ≤ mx)) ∧
    g = candidate_grid rain water ++
      [(candidate_grid rain water).getLastD 0 + s] ∧
    g.length = ((epochs rain).filter (fun e => mn ≤ e ∧ e ≤ mx)).length + 1
    := by
  obtain ⟨hd, hgeq⟩ := grid_ok_inv hg
  have hwf : window_filter rain water =
      (epochs rain).filter (fun e => mn ≤ e ∧ e ≤ mx) := by
    unfold window_filter
    rw [hmn, hmx]
  have hperm : List.Perm (candidate_grid rain water)
      ((epochs rain).filter (fun e => mn ≤ e ∧ e ≤ mx)) := by
    rw [← hwf]
    exact perm_candidate rain water
  refine ⟨sorted_candidate rain water, hperm, hgeq, ?_⟩
  rw [hgeq, List.length_append, hperm.length_eq]
  simp

/-- Witness for C3 at Scenario A. -/
theorem c3_witness :
    populate_grid_time rainA waterA =
      Except.ok ([0, 3600, 7200, 10800], 3600) ∧
    (epochs waterA).min? = some (-1800) ∧
    (epochs waterA).max? = some 9000 ∧
    ((candidate_grid rainA waterA).Sorted (· ≤ ·) ∧
      List.Perm (candidate_grid rainA waterA)
        ((epochs rainA).filter (fun e => -1800 ≤ e ∧ e ≤ 9000)) ∧
      [0, 3600, 7200, 10800] = candidate_grid rainA waterA ++
        [(candidate_grid rainA waterA).getLastD 0 + 3600] ∧
      ([0, 3600, 7200, 10800] : List Int).length =
        ((epochs rainA).filter (fun e => -1800 ≤ e ∧ e ≤ 9000)).length + 1)
    :=
  ⟨by decide, by decide, by decide,
    c3_grid_is_windowed_epochs rainA waterA _ _ _ _ (by decide) (by decide)
      (by decide)⟩

/-! ## C6: grid uniformity and monotonicity -/

/-- C6 as amended: on every successful grid determination the grid has
constant spacing `g[i+1] - g[i] = step` with `step ≥ 0`, and whenever the
windowed rainfall epochs contain no duplicates the grid is strictly
increasing and the step is positive.  (The unqualified original claim is
refuted by `c6_counterexample`: duplicated staged epochs yield a
constant grid with step 0.) -/
theorem c6_amended (rain water : List Sample) (g : List Int) (s : Int)
    (hg : populate_grid_time rain water = Except.ok (g, s)) :
    0 ≤ s ∧ List.Chain' (fun a b => a + s = b) g ∧
    ((window_filter rain water).Nodup →
      0 < s ∧ List.Chain' (· < ·) g) := by
  obtain ⟨hd, hgeq⟩ := grid_ok_inv hg
  have hcchain : List.Chain' (fun a b => a + s = b)
      (candidate_grid rain water) :=
    chain'_of_diffs (diffs_all_eq hd)
  have hne := candidate_ne_nil hd
  have hgchain : List.Chain' (fun a b => a + s = b) g := by
    rw [hgeq, List.chain'_append]
    refine ⟨hcchain, by simp, ?_⟩
    intro x hx y hy
    simp only [List.head?_cons, Option.mem_def, Option.some.injEq] at hy
    have hlast : (candidate_grid rain water).getLast? = some x := hx
    have : (candidate_grid rain water).getLastD 0 = x := by
      rw [List.getLastD_eq_getLast?, hlast]
      rfl
    omega
  refine ⟨step_nonneg hd, hgchain, ?_⟩
  intro hnd
  have hcnd : (candidate_grid rain water).Nodup :=
    ((perm_candidate rain water).nodup_iff).2 hnd
  have hpos : 0 < s :=
    diffs_pos (sorted_candidate rain water) hcnd s (delta_mem_diffs hd)
  exact ⟨hpos, hgchain.imp (fun a b hab => by omega)⟩

/-- Witness for C6 (amended) at Scenario A. -/
theorem c6_witness :
    populate_grid_time rainA waterA =
      Except.ok ([0, 3600, 7200, 10800], 3600) ∧
    ((0 : Int) ≤ 3600 ∧
      List.Chain' (fun a b => a + 3600 = b)
        ([0, 3600, 7200, 10800] : List Int) ∧
      ((window_filter rainA waterA).Nodup →
        (0 : Int) < 3600 ∧
        List.Chain' (· < ·) ([0, 3600, 7200, 10800] : List Int))) :=
  ⟨by decide, c6_amended rainA waterA _ _ (by decide)⟩

/-- Counterexample to C6 as stated: two staged rainfall samples sharing
epoch 0 inside the water-level window give a successful run whose grid is
`[0, 0, 0]` with step 0 — neither strictly increasing nor of positive
step. -/
theorem c6_counterexample :
    populate_grid_time [⟨0, 1⟩, ⟨0, 2⟩] [⟨-1800, 0⟩, ⟨9000, 0⟩] =
      Except.ok ([0, 0, 0], 0) ∧
    ¬ (List.Chain' (· < ·) ([0, 0, 0] : List Int) ∧ (0 : Int) < 0) := by
  exact ⟨by decide, fun h => absurd h.2 (lt_irrefl 0)⟩

/-! ## C4: exact-match rainfall binning -/

/-- C4: A staged rainfall sample is binned — i.e. the interval
`(epoch, epoch + step, intensity)` appears among the aligned rainfall
intervals — if and only if its epoch equals some grid point and is at
most the second-to-last grid point; conversely every emitted interval
arises this way from some staged sample, so samples at non-grid epochs
are silently excluded. -/
theorem c4_binning_iff (rain : List Sample) (grid : List Int)
    (step : Int) (s : Sample) (hs : s ∈ rain) :
    ((⟨s.epoch, s.epoch + step, s.value⟩ : Interval) ∈
        populate_rainfall_intensity rain grid step ↔
      (s.epoch ∈ grid ∧ s.epoch ≤ second_last grid)) ∧
    ∀ I ∈ populate_rainfall_intensity rain grid step,
      I.from_epoch ∈ grid ∧ I.from_epoch ≤ second_last grid ∧
      ∃ s' ∈ rain, I = ⟨s'.epoch, s'.epoch + step, s'.value⟩ := by
  constructor
  · constructor
    · intro hmem
      rw [populate_rainfall_intensity, List.mem_flatMap] at hmem
      obtain ⟨a, _, hI⟩ := hmem
      by_cases hle : a.epoch ≤ second_last grid
      · rw [if_pos hle, List.mem_map] at hI
        obtain ⟨e, he, heq⟩ := hI
        rw [List.mem_filter, decide_eq_true_eq] at he
        have h1 : a.epoch = s.epoch := congrArg Interval.from_epoch heq
        rw [h1] at hle
        refine ⟨?_, hle⟩
        rw [← h1, ← he.2]
        exact he.1
      · rw [if_neg hle] at hI
        cases hI
    · rintro ⟨hmem, hle⟩
      rw [populate_rainfall_intensity, List.mem_flatMap]
      refine ⟨s, hs, ?_⟩
      rw [if_pos hle, List.mem_map]
      exact ⟨s.epoch, List.mem_filter.2 ⟨hmem, by simp⟩, rfl⟩
  · intro I hI
    rw [populate_rainfall_intensity, List.mem_flatMap] at hI
    obtain ⟨a, ha, hI⟩ := hI
    by_cases hle : a.epoch ≤ second_last grid
    · rw [if_pos hle, List.mem_map] at hI
      obtain ⟨e, he, heq⟩ := hI
      rw [List.mem_filter, decide_eq_true_eq] at he
      have hfrom : I.from_epoch = a.epoch := (congrArg Interval.from_epoch heq).symm
      rw [hfrom, ← he.2]
      exact ⟨he.1, he.2 ▸ hle, a, ha, heq.symm⟩
    · rw [if_neg hle] at hI
      cases hI

/-- Witness for C4 at Scenario A: the sample at epoch 0 is binned. -/
theorem c4_witness :
    (⟨0, 0⟩ : Sample) ∈ rainA ∧
    (((⟨0, 3600, 0⟩ : Interval) ∈
        populate_rainfall_intensity rainA [0, 3600, 7200, 10800] 3600 ↔
      ((0 : Int) ∈ [0, 3600, 7200, 10800] ∧
        (0 : Int) ≤ second_last [0, 3600, 7200, 10800])) ∧
      ∀ I ∈ populate_rainfall_intensity rainA [0, 3600, 7200, 10800] 3600,
        I.from_epoch ∈ [0, 3600, 7200, 10800] ∧
        I.from_epoch ≤ second_last [0, 3600, 7200, 10800] ∧
        ∃ s' ∈ rainA, I = ⟨s'.epoch, s'.epoch + 3600, s'.value⟩) :=
  ⟨by decide, c4_binning_iff rainA [0, 3600, 7200, 10800] 3600 ⟨0, 0⟩
    (by decide)⟩

/-! ## C9: staging store returns epoch-ordered samples -/

/-- C9: The staged samples handed to the resampler are the staged series
ordered ascending by epoch, whatever order they were inserted in:
`select_all` returns a permutation of the staged samples that is sorted
by epoch (the water-level interpolation consumes exactly
`select_all water`). -/
theorem c9_select_all_sorted (water : List Sample) :
    List.Perm (select_all water) water ∧
    (epochs (select_all water)).Sorted (· ≤ ·) := by
  refine ⟨List.perm_insertionSort _ _, ?_⟩
  have h : (select_all water).Sorted sampleLE :=
    List.sorted_insertionSort _ _
  unfold epochs
  exact List.Pairwise.map _ (fun _ _ hab => hab) h

/-! ## Helpers for the tiling invariant (C7) -/

/-- Ordering of aligned rainfall intervals by starting epoch. -/
def intervalLE (a b : Interval) : Prop := a.from_epoch ≤ b.from_epoch

instance : DecidableRel intervalLE := fun a b => by
  unfold intervalLE; infer_instance

instance : IsTotal Interval intervalLE :=
  ⟨fun a b => le_total a.from_epoch b.from_epoch⟩

instance : IsTrans Interval intervalLE := ⟨fun _ _ _ h h' => le_trans h h'⟩

/-- Membership characterization of the aligned rainfall output: an
interval is emitted exactly when some staged sample has its epoch on the
grid, at most the second-to-last grid point, and the interval is that
sample's `(epoch, epoch + step, intensity)` row. -/
theorem mem_rainfall_intensity {rain : List Sample} {grid : List Int}
    {step : Int} {I : Interval} :
    I ∈ populate_rainfall_intensity rain grid step ↔
    ∃ a ∈ rain, a.epoch ∈ grid ∧ a.epoch ≤ second_last grid ∧
      I = ⟨a.epoch, a.epoch + step, a.value⟩ := by
  rw [populate_rainfall_intensity, List.mem_flatMap]
  constructor
  · rintro ⟨a, ha, hI⟩
    by_cases hle : a.epoch ≤ second_last grid
    · rw [if_pos hle, List.mem_map] at hI
      obtain ⟨e, he, heq⟩ := hI
      rw [List.mem_filter, decide_eq_true_eq] at he
      exact ⟨a, ha, he.2 ▸ he.1, hle, heq.symm⟩
    · rw [if_neg hle] at hI
      cases hI
  · rintro ⟨a, ha, hmem, hle, rfl⟩
    refine ⟨a, ha, ?_⟩
    rw [if_pos hle, List.mem_map]
    exact ⟨a.epoch, List.mem_filter.2 ⟨hmem, by simp⟩, rfl⟩

theorem getLastD_irrel {l : List Int} (h : l ≠ []) (d d' : Int) :
    l.getLastD d = l.getLastD d' := by
  cases hl : l.getLast? with
  | none => exact absurd (List.getLast?_eq_none_iff.1 hl) h
  | some y =>
    rw [List.getLastD_eq_getLast?, List.getLastD_eq_getLast?, hl]
    rfl

theorem getLast?_eq_getLastD {l : List Int} (h : l ≠ []) :
    l.getLast? = some (l.getLastD 0) := by
  cases hl : l.getLast? with
  | none => exact absurd (List.getLast?_eq_none_iff.1 hl) h
  | some y =>
    rw [List.getLastD_eq_getLast?, hl]
    rfl

theorem getLastD_mem {l : List Int} (h : l ≠ []) : l.getLastD 0 ∈ l :=
  List.mem_of_getLast?_eq_some (getLast?_eq_getLastD h)

/-- Every windowed epoch is a staged rainfall epoch. -/
theorem window_filter_subset {r w : List Sample} :
    ∀ e ∈ window_filter r w, e ∈ epochs r := by
  intro e
  unfold window_filter
  cases (epochs w).min? with
  | none => intro he; cases he
  | some mn =>
    cases (epochs w).max? with
    | none => intro he; cases he
    | some mx =>
      intro he
      exact (List.mem_filter.1 he).1

/-- A nodup list filtered for equality with a member is that singleton. -/
theorem filter_eq_singleton_of_nodup {l : List Int} (hn : l.Nodup)
    {e : Int} (he : e ∈ l) : l.filter (fun x => x = e) = [e] := by
  induction l with
  | nil => cases he
  | cons b t ih =>
    rw [List.nodup_cons] at hn
    rcases List.mem_cons.1 he with rfl | het
    · rw [List.filter_cons_of_pos (by simp)]
      have : t.filter (fun x => x = e) = [] :=
        List.filter_eq_nil_iff.2 (fun x hx => by
          simp only [decide_eq_true_eq]
          rintro rfl
          exact hn.1 hx)
      rw [this]
    · have hbe : b ≠ e := fun hbe => hn.1 (hbe ▸ het)
      rw [List.filter_cons_of_neg (by simpa using hbe)]
      exact ih hn.2 het

/-- Converting an all-members property and a chain on starting epochs
into the gapless chain on intervals. -/
theorem chain'_thru_from {l : List Interval} {s : Int}
    (ht : ∀ I ∈ l, I.thru_epoch = I.from_epoch + s)
    (hc : List.Chain' (fun a b => a + s = b) (l.map Interval.from_epoch)) :
    List.Chain' (fun I J => I.thru_epoch = J.from_epoch) l := by
  induction l with
  | nil => simp
  | cons a t ih =>
    cases t with
    | nil => simp
    | cons b r =>
      rw [List.map_cons, List.map_cons, List.chain'_cons] at hc
      rw [List.chain'_cons]
      refine ⟨?_, ih (fun I hI => ht I (List.mem_cons.2 (Or.inr hI)))
        (by simpa using hc.2)⟩
      rw [ht a (by simp)]
      exact hc.1

/-- In a list whose consecutive elements all differ by 0, every element
equals the last one. -/
theorem chain'_zero_all_eq_last {l : List Int}
    (h : List.Chain' (fun a b => a + 0 = b) l) :
    ∀ x ∈ l, x = l.getLastD 0 := by
  induction l with
  | nil => simp
  | cons a t ih =>
    intro x hx
    cases t with
    | nil =>
      rw [List.mem_singleton] at hx
      simpa using hx
    | cons b r =>
      rw [List.chain'_cons] at h
      rw [List.getLastD_cons, getLastD_irrel (List.cons_ne_nil b r) a 0]
      rcases List.mem_cons.1 hx with rfl | hx
      · have hxb : x = b := by omega
        rw [hxb]
        exact ih h.2 b (List.mem_cons_self _ _)
      · exact ih h.2 x hx

theorem chain'_of_all_const {l : List Interval} {e : Int}
    (hf : ∀ I ∈ l, I.from_epoch = e) (ht : ∀ I ∈ l, I.thru_epoch = e) :
    List.Chain' (fun I J => I.thru_epoch = J.from_epoch) l := by
  induction l with
  | nil => simp
  | cons a t ih =>
    rw [List.chain'_cons']
    constructor
    · intro y hy
      rw [ht a (List.mem_cons_self _ _),
        hf y (List.mem_cons.2 (Or.inr (List.mem_of_mem_head? hy)))]
    · exact ih (fun I hI => hf I (List.mem_cons.2 (Or.inr hI)))
        (fun I hI => ht I (List.mem_cons.2 (Or.inr hI)))

theorem second_last_append {c : List Int} {x : Int} :
    second_last (c ++ [x]) = c.getLastD 0 := by
  unfold second_last
  rw [List.dropLast_concat]

theorem head?_append_of_ne_nil {c t : List Int} (h : c ≠ []) :
    (c ++ t).head? = c.head? := by
  cases c with
  | nil => exact absurd rfl h
  | cons a r => rfl

theorem candidate_nodup_of_pos {r w : List Sample} {s : Int}
    (hd : delta_t r w = [s]) (hs : 0 < s) :
    (candidate_grid r w).Nodup := by
  have hchain : List.Chain' (fun a b => a + s = b) (candidate_grid r w) :=
    chain'_of_diffs (diffs_all_eq hd)
  have hlt : List.Chain' (· < ·) (candidate_grid r w) :=
    hchain.imp (fun a b hab => by omega)
  have hp : (candidate_grid r w).Pairwise (· < ·) :=
    List.chain'_iff_pairwise.1 hlt
  exact hp.imp (fun hab => ne_of_lt hab)

theorem grid_nodup_of_pos {r w : List Sample} {s : Int}
    (hd : delta_t r w = [s]) (hs : 0 < s) :
    (candidate_grid r w ++ [(candidate_grid r w).getLastD 0 + s]).Nodup := by
  rw [List.nodup_append]
  refine ⟨candidate_nodup_of_pos hd hs, List.nodup_singleton _, ?_⟩
  intro x hx hy
  rw [List.mem_singleton] at hy
  have hle := sorted_mem_le_getLastD (sorted_candidate r w) x hx
  omega

/-- With a positive step, each staged sample emits exactly one interval
when its epoch is a candidate epoch, and nothing otherwise. -/
theorem emission_eq_of_pos {r w : List Sample} {s : Int}
    (hd : delta_t r w = [s]) (hs : 0 < s) (a : Sample) :
    (if a.epoch ≤ second_last
        (candidate_grid r w ++ [(candidate_grid r w).getLastD 0 + s]) then
      ((candidate_grid r w ++
          [(candidate_grid r w).getLastD 0 + s]).filter
        (fun e => e = a.epoch)).map
        (fun _ => (⟨a.epoch, a.epoch + s, a.value⟩ : Interval))
    else []) =
    if a.epoch ∈ candidate_grid r w
    then [(⟨a.epoch, a.epoch + s, a.value⟩ : Interval)] else [] := by
  rw [second_last_append]
  by_cases hmem : a.epoch ∈ candidate_grid r w
  · rw [if_pos hmem,
      if_pos (sorted_mem_le_getLastD (sorted_candidate r w) a.epoch hmem)]
    rw [filter_eq_singleton_of_nodup (grid_nodup_of_pos hd hs)
      (List.mem_append_left _ hmem)]
    rfl
  · rw [if_neg hmem]
    by_cases hle : a.epoch ≤ (candidate_grid r w).getLastD 0
    · rw [if_pos hle]
      have hnil : (candidate_grid r w ++
          [(candidate_grid r w).getLastD 0 + s]).filter
            (fun e => e = a.epoch) = [] := by
        rw [List.filter_eq_nil_iff]
        intro x hx
        simp only [decide_eq_true_eq]
        rintro rfl
        rcases List.mem_append.1 hx with h | h
        · exact hmem h
        · rw [List.mem_singleton] at h
          omega
      rw [hnil]
      rfl
    · rw [if_neg hle]

/-- With a positive step, the rainfall output is the one-interval-per-
windowed-sample list. -/
theorem out_eq_of_pos {r w : List Sample} {s : Int}
    (hd : delta_t r w = [s]) (hs : 0 < s) :
    populate_rainfall_intensity r
      (candidate_grid r w ++ [(candidate_grid r w).getLastD 0 + s]) s =
    r.flatMap (fun a => if a.epoch ∈ candidate_grid r w
      then [(⟨a.epoch, a.epoch + s, a.value⟩ : Interval)] else []) := by
  unfold populate_rainfall_intensity
  congr 1
  funext a
  exact emission_eq_of_pos hd hs a

theorem flatMap_if_map_from (r : List Sample) (c : List Int) (s : Int) :
    ((r.flatMap (fun a => if a.epoch ∈ c
        then [(⟨a.epoch, a.epoch + s, a.value⟩ : Interval)] else [])).map
      Interval.from_epoch) = (epochs r).filter (fun e => e ∈ c) := by
  induction r with
  | nil => rfl
  | cons a t ih =>
    rw [List.flatMap_cons, List.map_append, ih]
    by_cases h : a.epoch ∈ c
    · rw [if_pos h]
      simp [epochs, List.filter_cons, h]
    · rw [if_neg h]
      simp [epochs, List.filter_cons, h]

theorem filter_mem_window_eq {r w : List Sample} :
    (epochs r).filter (fun e => e ∈ window_filter r w) =
      window_filter r w := by
  unfold window_filter
  cases (epochs w).min? with
  | none => simp
  | some mn =>
    cases (epochs w).max? with
    | none => simp
    | some mx =>
      refine List.filter_congr (fun e he => ?_)
      simp [List.mem_filter, he]

theorem filter_mem_candidate_eq {r w : List Sample} :
    (epochs r).filter (fun e => e ∈ candidate_grid r w) =
      window_filter r w := by
  have h1 : (epochs r).filter (fun e => e ∈ candidate_grid r w) =
      (epochs r).filter (fun e => e ∈ window_filter r w) := by
    refine List.filter_congr (fun e he => ?_)
    exact decide_eq_decide.2 (List.mem_insertionSort _)
  rw [h1, filter_mem_window_eq]

/-- With a positive step, the starting epochs of the rainfall output are
exactly the windowed rainfall epochs. -/
theorem out_map_from_of_pos {r w : List Sample} {s : Int}
    (hd : delta_t r w = [s]) (hs : 0 < s) :
    (populate_rainfall_intensity r
        (candidate_grid r w ++ [(candidate_grid r w).getLastD 0 + s]) s).map
      Interval.from_epoch = window_filter r w := by
  rw [out_eq_of_pos hd hs, flatMap_if_map_from]
  exact filter_mem_candidate_eq

theorem head?_map_of_all {l : List Interval} (h : l ≠ []) {e : Int}
    (ha : ∀ I ∈ l, I.from_epoch = e) :
    l.head?.map Interval.from_epoch = some e := by
  cases l with
  | nil => exact absurd rfl h
  | cons a t => simpa using ha a (List.mem_cons_self _ _)

theorem head?_all_eq {l : List Int} (h : l ≠ []) {e : Int}
    (ha : ∀ y ∈ l, y = e) : l.head? = some e := by
  cases l with
  | nil => exact absurd rfl h
  | cons a t => rw [List.head?_cons, ha a (List.mem_cons_self _ _)]

theorem getLast?_map_of_all {l : List Interval} (h : l ≠ []) {v : Int}
    (ha : ∀ I ∈ l, I.thru_epoch = v) :
    (l.map Interval.thru_epoch).getLast? = some v := by
  rw [List.getLast?_map]
  cases hl : l.getLast? with
  | none => exact absurd (List.getLast?_eq_none_iff.1 hl) h
  | some y =>
    rw [Option.map_some']
    rw [ha y (List.mem_of_getLast?_eq_some hl)]

/-! ## C7: the aligned rainfall intervals tile the grid range -/

/-- C7: On every successful run, every aligned rainfall interval spans
exactly one step (`thru_epoch = from_epoch + step`), and ordered by
starting epoch the intervals are contiguous — each interval's
`thru_epoch` is the next interval's `from_epoch`, the first `from_epoch`
is `grid[0]`, and the last `thru_epoch` is `grid[-2] + step` — so they
tile `[grid[0], grid[-2] + step)` with no gaps and no overlaps. -/
theorem c7_intervals_tile (rain water : List Sample) (g : List Int)
    (s : Int) (hg : populate_grid_time rain water = Except.ok (g, s)) :
    (∀ I ∈ populate_rainfall_intensity rain g s,
        I.thru_epoch = I.from_epoch + s) ∧
    List.Chain' (fun I J => I.thru_epoch = J.from_epoch)
      (List.insertionSort intervalLE
        (populate_rainfall_intensity rain g s)) ∧
    (List.insertionSort intervalLE
        (populate_rainfall_intensity rain g s)).head?.map
      Interval.from_epoch = g.head? ∧
    ((List.insertionSort intervalLE
        (populate_rainfall_intensity rain g s)).map
      Interval.thru_epoch).getLast? = some (second_last g + s) := by
  obtain ⟨hd, hgeq⟩ := grid_ok_inv hg
  have hcne : candidate_grid rain water ≠ [] := candidate_ne_nil hd
  have hchain : List.Chain' (fun a b => a + s = b)
      (candidate_grid rain water) := chain'_of_diffs (diffs_all_eq hd)
  have hsl : second_last g = (candidate_grid rain water).getLastD 0 := by
    rw [hgeq]
    exact second_last_append
  have ht : ∀ I ∈ populate_rainfall_intensity rain g s,
      I.thru_epoch = I.from_epoch + s := by
    intro I hI
    obtain ⟨a, _, _, _, rfl⟩ := mem_rainfall_intensity.1 hI
    rfl
  have hts : ∀ I ∈ List.insertionSort intervalLE
      (populate_rainfall_intensity rain g s),
      I.thru_epoch = I.from_epoch + s :=
    fun I hI => ht I ((List.mem_insertionSort _).1 hI)
  rcases lt_or_eq_of_le (step_nonneg hd) with hpos | hz
  · -- positive step: the sorted starting epochs are the candidate grid
    have hms : (List.insertionSort intervalLE
        (populate_rainfall_intensity rain g s)).map Interval.from_epoch =
        candidate_grid rain water := by
      rw [List.map_insertionSort intervalLE (· ≤ ·) Interval.from_epoch _
        (fun a _ b _ => Iff.rfl)]
      rw [hgeq, out_map_from_of_pos hd hpos]
      rfl
    refine ⟨ht, chain'_thru_from hts (by rw [hms]; exact hchain), ?_, ?_⟩
    · rw [← List.head?_map, hms, hgeq, head?_append_of_ne_nil hcne]
    · have hmt : (List.insertionSort intervalLE
          (populate_rainfall_intensity rain g s)).map Interval.thru_epoch =
          ((List.insertionSort intervalLE
            (populate_rainfall_intensity rain g s)).map
              Interval.from_epoch).map (· + s) := by
        rw [List.map_map]
        exact List.map_congr_left (fun I hI => hts I hI)
      rw [hmt, hms, List.getLast?_map, getLast?_eq_getLastD hcne, hsl]
      rfl
  · -- zero step: all candidate epochs coincide and all intervals are the
    -- degenerate interval at that epoch
    subst hz
    have hall : ∀ y ∈ candidate_grid rain water,
        y = (candidate_grid rain water).getLastD 0 :=
      chain'_zero_all_eq_last hchain
    have hgall : ∀ y ∈ g, y = (candidate_grid rain water).getLastD 0 := by
      intro y hy
      rw [hgeq] at hy
      rcases List.mem_append.1 hy with h | h
      · exact hall y h
      · rw [List.mem_singleton] at h
        omega
    have hex : ∃ a ∈ rain,
        a.epoch = (candidate_grid rain water).getLastD 0 := by
      have h1 : (candidate_grid rain water).getLastD 0 ∈
          candidate_grid rain water := getLastD_mem hcne
      have h2 := (List.mem_insertionSort (· ≤ ·)).1 h1
      have h3 := window_filter_subset _ h2
      rw [epochs, List.mem_map] at h3
      obtain ⟨a, ha, hae⟩ := h3
      exact ⟨a, ha, hae⟩
    obtain ⟨a, ha, hae⟩ := hex
    have hI0 : (⟨a.epoch, a.epoch + 0, a.value⟩ : Interval) ∈
        populate_rainfall_intensity rain g 0 := by
      refine mem_rainfall_intensity.2 ⟨a, ha, ?_, ?_, rfl⟩
      · rw [hgeq]
        exact List.mem_append_left _ (hae ▸ getLastD_mem hcne)
      · rw [hsl, hae]
    have houtne : populate_rainfall_intensity rain g 0 ≠ [] :=
      List.ne_nil_of_mem hI0
    have hsone : List.insertionSort intervalLE
        (populate_rainfall_intensity rain g 0) ≠ [] := by
      intro hnil
      have hp := List.perm_insertionSort intervalLE
        (populate_rainfall_intensity rain g 0)
      rw [hnil] at hp
      exact houtne hp.symm.eq_nil
    have hfs : ∀ I ∈ List.insertionSort intervalLE
        (populate_rainfall_intensity rain g 0),
        I.from_epoch = (candidate_grid rain water).getLastD 0 := by
      intro I hI
      obtain ⟨a', _, hmem, _, rfl⟩ :=
        mem_rainfall_intensity.1 ((List.mem_insertionSort _).1 hI)
      exact hgall _ hmem
    have hth : ∀ I ∈ List.insertionSort intervalLE
        (populate_rainfall_intensity rain g 0),
        I.thru_epoch = (candidate_grid rain water).getLastD 0 := by
      intro I hI
      rw [hts I hI, hfs I hI]
      omega
    have hgne : g ≠ [] := by
      rw [hgeq]
      simp
    refine ⟨ht, chain'_of_all_const hfs hth, ?_, ?_⟩
    · rw [head?_map_of_all hsone hfs, head?_all_eq hgne hgall]
    · refine getLast?_map_of_all hsone ?_
      intro I hI
      rw [hts I hI, hfs I hI, hsl]

/-- Witness for C7 at Scenario A. -/
theorem c7_witness :
    populate_grid_time rainA waterA =
      Except.ok ([0, 3600, 7200, 10800], 3600) ∧
    ((∀ I ∈ populate_rainfall_intensity rainA [0, 3600, 7200, 10800] 3600,
        I.thru_epoch = I.from_epoch + 3600) ∧
      List.Chain' (fun I J => I.thru_epoch = J.from_epoch)
        (List.insertionSort intervalLE
          (populate_rainfall_intensity rainA [0, 3600, 7200, 10800] 3600)) ∧
      (List.insertionSort intervalLE
          (populate_rainfall_intensity rainA [0, 3600, 7200, 10800]
            3600)).head?.map Interval.from_epoch =
        ([0, 3600, 7200, 10800] : List Int).head? ∧
      ((List.insertionSort intervalLE
          (populate_rainfall_intensity rainA [0, 3600, 7200, 10800]
            3600)).map Interval.thru_epoch).getLast? =
        some (second_last [0, 3600, 7200, 10800] + 3600)) :=
  ⟨by decide, c7_intervals_tile rainA waterA _ _ (by decide)⟩

/-! ## Interpolation lemmas (C5) -/

/-- Below (or at) the first knot, `interp` clamps to the first value. -/
theorem interp_le_head {x x0 f0 : ℚ} {rest : List (ℚ × ℚ)}
    (hp : ((x0, f0) :: rest).Pairwise (fun p q => p.1 < q.1))
    (h : x ≤ x0) : interp x ((x0, f0) :: rest) = f0 := by
  cases rest with
  | nil => rfl
  | cons p r =>
    obtain ⟨x1, f1⟩ := p
    have h01 : x0 < x1 := (List.pairwise_cons.1 hp).1 (x1, f1) (by simp)
    show (if x < x0 then f0
      else if x < x1 then f0 + (f1 - f0) * (x - x0) / (x1 - x0)
      else interp x ((x1, f1) :: r)) = f0
    by_cases hlt : x < x0
    · rw [if_pos hlt]
    · rw [if_neg hlt, if_pos (lt_of_le_of_lt h h01)]
      have hx0 : x = x0 := le_antisymm h (not_lt.1 hlt)
      rw [hx0]
      simp

theorem interp_head?_of_le {x : ℚ} {knots : List (ℚ × ℚ)} {p0 : ℚ × ℚ}
    (hp : knots.Pairwise (fun p q => p.1 < q.1))
    (hh : knots.head? = some p0) (h : x ≤ p0.1) :
    interp x knots = p0.2 := by
  cases knots with
  | nil => cases hh
  | cons q t =>
    rw [List.head?_cons, Option.some.injEq] at hh
    obtain rfl := hh
    obtain ⟨x0, f0⟩ := q
    exact interp_le_head hp h

/-- Above (or at) the last knot, `interp` clamps to the last value. -/
theorem interp_ge_last {x : ℚ} {p1 : ℚ × ℚ} : ∀ {knots : List (ℚ × ℚ)},
    knots.Pairwise (fun p q => p.1 < q.1) →
    knots.getLast? = some p1 → p1.1 ≤ x → interp x knots = p1.2 := by
  intro knots
  induction knots with
  | nil => intro _ h _; cases h
  | cons q t ih =>
    obtain ⟨x0, f0⟩ := q
    intro hp hl hx
    cases t with
    | nil =>
      simp only [List.getLast?_singleton, Option.some.injEq] at hl
      rw [← hl]
      rfl
    | cons q' r =>
      obtain ⟨x1, f1⟩ := q'
      rw [List.getLast?_cons_cons] at hl
      have hmem : p1 ∈ (x1, f1) :: r := List.mem_of_getLast?_eq_some hl
      have h01 : x0 < x1 := (List.pairwise_cons.1 hp).1 (x1, f1) (by simp)
      have hx1n : x1 ≤ p1.1 := by
        rcases List.mem_cons.1 hmem with heq | hmem'
        · rw [heq]
        · exact le_of_lt ((List.pairwise_cons.1 hp.of_cons).1 _ hmem')
      show (if x < x0 then f0
        else if x < x1 then f0 + (f1 - f0) * (x - x0) / (x1 - x0)
        else interp x ((x1, f1) :: r)) = p1.2
      rw [if_neg (not_lt.2 (le_trans (le_of_lt h01) (le_trans hx1n hx))),
        if_neg (not_lt.2 (le_trans hx1n hx))]
      exact ih hp.of_cons hl hx

/-- `interp` is exact at a knot of a strictly ordered knot list. -/
theorem interp_knot {x f : ℚ} : ∀ {knots : List (ℚ × ℚ)},
    knots.Pairwise (fun p q => p.1 < q.1) → (x, f) ∈ knots →
    interp x knots = f := by
  intro knots
  induction knots with
  | nil => intro _ h; cases h
  | cons q t ih =>
    obtain ⟨x0, f0⟩ := q
    intro hp hmem
    rcases List.mem_cons.1 hmem with heq | hmem'
    · have h1 : x = x0 := congrArg Prod.fst heq
      have h2 : f = f0 := congrArg Prod.snd heq
      rw [h2]
      exact interp_le_head hp (le_of_eq h1)
    · cases t with
      | nil => cases hmem'
      | cons q' r =>
        obtain ⟨x1, f1⟩ := q'
        have h0x : x0 < x :=
          (List.pairwise_cons.1 hp).1 (x, f) hmem'
        show (if x < x0 then f0
          else if x < x1 then f0 + (f1 - f0) * (x - x0) / (x1 - x0)
          else interp x ((x1, f1) :: r)) = f
        rcases List.mem_cons.1 hmem' with heq1 | hmem2
        · have h1 : x = x1 := congrArg Prod.fst heq1
          rw [if_neg (not_lt.2 (le_of_lt h0x)),
            if_neg (not_lt.2 (le_of_eq h1.symm))]
          exact ih hp.of_cons hmem'
        · have h1x : x1 < x :=
            (List.pairwise_cons.1 hp.of_cons).1 (x, f) hmem2
          rw [if_neg (not_lt.2 (le_of_lt h0x)),
            if_neg (not_lt.2 (le_of_lt h1x))]
          exact ih hp.of_cons hmem'

/-- With pairwise-distinct staged epochs, the epoch-sorted knot list of
the water-level interpolation is strictly increasing in its epochs. -/
theorem zeta_pairwise {water : List Sample} (hn : (epochs water).Nodup) :
    ((select_all water).map
      (fun a => ((a.epoch : ℚ), a.value))).Pairwise
      (fun p q => p.1 < q.1) := by
  have hsort : (select_all water).Sorted sampleLE :=
    List.sorted_insertionSort _ _
  have hnd : (epochs (select_all water)).Nodup := by
    have hperm : List.Perm (epochs (select_all water)) (epochs water) := by
      unfold epochs
      exact (List.perm_insertionSort sampleLE water).map (fun a => a.epoch)
    exact hperm.nodup_iff.2 hn
  have hne : (select_all water).Pairwise (fun a b => a.epoch ≠ b.epoch) :=
    List.pairwise_map.1 hnd
  have hlt : (select_all water).Pairwise (fun a b => a.epoch < b.epoch) :=
    (hsort.and hne).imp (fun hab => lt_of_le_of_ne hab.1 hab.2)
  refine List.pairwise_map.2 (hlt.imp ?_)
  intro a b hab
  show (a.epoch : ℚ) < (b.epoch : ℚ)
  exact_mod_cast hab

theorem sorted_sample_le_getLast {l : List Sample}
    (h : l.Sorted sampleLE) {y : Sample} (hy : l.getLast? = some y) :
    ∀ b ∈ l, b.epoch ≤ y.epoch := by
  induction l with
  | nil => cases hy
  | cons a t ih =>
    intro b hb
    cases t with
    | nil =>
      simp only [List.getLast?_singleton, Option.some.injEq] at hy
      rw [List.mem_singleton] at hb
      rw [hb, hy]
    | cons a' t' =>
      rw [List.getLast?_cons_cons] at hy
      have hyt : y ∈ a' :: t' := List.mem_of_getLast?_eq_some hy
      rcases List.mem_cons.1 hb with rfl | hb'
      · exact List.rel_of_sorted_cons h y hyt
      · exact ih h.of_cons hy b hb'

/-! ## C5: water-level interpolation -/

/-- C5 as amended: on every successful run over a water-level series with
pairwise-distinct staged epochs, an aligned water level is produced for
every grid point except the last, the value at a grid epoch equal to a
staged epoch is exactly the staged value, and at a query epoch at or
below (resp. at or above) all staged epochs the value is clamped to the
boundary staged value.  (The original claim without the distinct-epoch
proviso is refuted by `c5_counterexample`: duplicate staged epochs with
different values cannot both be reproduced.) -/
theorem c5_water_level_amended (rain water : List Sample) (g : List Int)
    (s : Int) (_hg : populate_grid_time rain water = Except.ok (g, s))
    (hn : (epochs water).Nodup) :
    (populate_water_level water g).map Prod.fst = g.dropLast ∧
    (∀ a ∈ water, ∀ p ∈ populate_water_level water g,
      p.1 = a.epoch → p.2 = a.value) ∧
    (∀ a ∈ water, (∀ b ∈ water, a.epoch ≤ b.epoch) →
      ∀ p ∈ populate_water_level water g, p.1 ≤ a.epoch → p.2 = a.value) ∧
    (∀ a ∈ water, (∀ b ∈ water, b.epoch ≤ a.epoch) →
      ∀ p ∈ populate_water_level water g, a.epoch ≤ p.1 → p.2 = a.value)
    := by
  have hzp := zeta_pairwise hn
  have hn' : (water.map (fun b => b.epoch)).Nodup := hn
  have hperm : List.Perm (select_all water) water :=
    List.perm_insertionSort _ _
  have hsort : (select_all water).Sorted sampleLE :=
    List.sorted_insertionSort _ _
  refine ⟨?_, ?_, ?_, ?_⟩
  · unfold populate_water_level
    rw [List.map_map]
    show g.dropLast.map (fun e => e) = g.dropLast
    simp
  · intro a ha p hp hpe
    obtain ⟨e, he, rfl⟩ := List.mem_map.1 hp
    have hknot : ((a.epoch : ℚ), a.value) ∈
        (select_all water).map (fun b => ((b.epoch : ℚ), b.value)) :=
      List.mem_map.2 ⟨a, hperm.mem_iff.2 ha, rfl⟩
    have he2 : e = a.epoch := hpe
    show interp (e : ℚ)
      ((select_all water).map (fun b => ((b.epoch : ℚ), b.value))) = a.value
    rw [show ((e : ℚ)) = ((a.epoch : ℚ)) from by rw [he2]]
    exact interp_knot hzp hknot
  · intro a ha hmin p hp hple
    obtain ⟨e, he, rfl⟩ := List.mem_map.1 hp
    obtain ⟨h0, t0, hcons⟩ : ∃ h0 t0, select_all water = h0 :: t0 := by
      cases hsel : select_all water with
      | nil =>
        exfalso
        rw [hsel] at hperm
        exact (List.ne_nil_of_mem ha) hperm.symm.eq_nil
      | cons h0 t0 => exact ⟨h0, t0, rfl⟩
    have hh0w : h0 ∈ water :=
      hperm.mem_iff.1 (by rw [hcons]; exact List.mem_cons_self _ _)
    have hh0min : ∀ b ∈ water, h0.epoch ≤ b.epoch := by
      intro b hb
      have hb' : b ∈ select_all water := hperm.mem_iff.2 hb
      rw [hcons] at hb'
      rcases List.mem_cons.1 hb' with rfl | hb''
      · exact le_refl _
      · have hsort' := hsort
        rw [hcons] at hsort'
        exact List.rel_of_sorted_cons hsort' b hb''
    have haeq : a = h0 :=
      List.inj_on_of_nodup_map hn' ha hh0w
        (le_antisymm (hmin h0 hh0w) (hh0min a ha))
    have hzh : ((select_all water).map
        (fun b => ((b.epoch : ℚ), b.value))).head? =
        some ((h0.epoch : ℚ), h0.value) := by
      rw [hcons]
      rfl
    have hle2 : (e : ℚ) ≤ (((h0.epoch : ℚ), h0.value)).1 := by
      show (e : ℚ) ≤ (h0.epoch : ℚ)
      have h3 : e ≤ a.epoch := hple
      rw [← haeq]
      exact_mod_cast h3
    have h4 := interp_head?_of_le hzp hzh hle2
    show interp (e : ℚ)
      ((select_all water).map (fun b => ((b.epoch : ℚ), b.value))) = a.value
    rw [h4, haeq]
  · intro a ha hmax p hp hple
    obtain ⟨e, he, rfl⟩ := List.mem_map.1 hp
    have hane : select_all water ≠ [] := by
      intro hnil
      rw [hnil] at hperm
      exact (List.ne_nil_of_mem ha) hperm.symm.eq_nil
    obtain ⟨y, hy⟩ : ∃ y, (select_all water).getLast? = some y := by
      cases hsel : (select_all water).getLast? with
      | none => exact absurd (List.getLast?_eq_none_iff.1 hsel) hane
      | some y => exact ⟨y, rfl⟩
    have hyw : y ∈ water :=
      hperm.mem_iff.1 (List.mem_of_getLast?_eq_some hy)
    have hymax : ∀ b ∈ water, b.epoch ≤ y.epoch := fun b hb =>
      sorted_sample_le_getLast hsort hy b (hperm.mem_iff.2 hb)
    have haeq : a = y :=
      List.inj_on_of_nodup_map hn' ha hyw
        (le_antisymm (hymax a ha) (hmax y hyw))
    have hzl : ((select_all water).map
        (fun b => ((b.epoch : ℚ), b.value))).getLast? =
        some ((y.epoch : ℚ), y.value) := by
      rw [List.getLast?_map, hy]
      rfl
    have hle2 : (((y.epoch : ℚ), y.value)).1 ≤ (e : ℚ) := by
      show (y.epoch : ℚ) ≤ (e : ℚ)
      have h3 : a.epoch ≤ e := hple
      rw [← haeq]
      exact_mod_cast h3
    have h4 := interp_ge_last hzp hzl hle2
    show interp (e : ℚ)
      ((select_all water).map (fun b => ((b.epoch : ℚ), b.value))) = a.value
    rw [h4, haeq]

/-- Counterexample to C5 as stated: with two staged water-level samples
sharing epoch 0 but carrying values 1 and 2, the run succeeds yet the
aligned value at grid epoch 0 is 2, not the staged value 1 of the first
sample — exactness at knots fails under duplicate epochs. -/
theorem c5_counterexample :
    populate_grid_time [⟨0, 0⟩, ⟨4500, 5⟩, ⟨9000, 10⟩]
        [⟨0, 1⟩, ⟨0, 2⟩, ⟨9000, 3⟩] =
      Except.ok ([0, 4500, 9000, 13500], 4500) ∧
    (⟨0, 1⟩ : Sample) ∈ ([⟨0, 1⟩, ⟨0, 2⟩, ⟨9000, 3⟩] : List Sample) ∧
    (populate_water_level [⟨0, 1⟩, ⟨0, 2⟩, ⟨9000, 3⟩]
      [0, 4500, 9000, 13500]).head? = some (0, (2 : ℚ)) ∧
    (2 : ℚ) ≠ 1 := by
  refine ⟨by decide, by decide, ?_, by norm_num⟩
  have hsel : select_all [⟨0, 1⟩, ⟨0, 2⟩, ⟨9000, 3⟩] =
      [⟨0, 1⟩, ⟨0, 2⟩, ⟨9000, 3⟩] := by decide
  unfold populate_water_level
  rw [hsel]
  norm_num [interp]

/-- Witness for C5 (amended) at Scenario A with water levels 0 and 1. -/
theorem c5_witness :
    populate_grid_time rainA waterA =
      Except.ok ([0, 3600, 7200, 10800], 3600) ∧
    (epochs waterA).Nodup ∧
    ((populate_water_level waterA [0, 3600, 7200, 10800]).map Prod.fst =
        ([0, 3600, 7200, 10800] : List Int).dropLast ∧
      (∀ a ∈ waterA,
        ∀ p ∈ populate_water_level waterA [0, 3600, 7200, 10800],
        p.1 = a.epoch → p.2 = a.value) ∧
      (∀ a ∈ waterA, (∀ b ∈ waterA, a.epoch ≤ b.epoch) →
        ∀ p ∈ populate_water_level waterA [0, 3600, 7200, 10800],
        p.1 ≤ a.epoch → p.2 = a.value) ∧
      (∀ a ∈ waterA, (∀ b ∈ waterA, b.epoch ≤ a.epoch) →
        ∀ p ∈ populate_water_level waterA [0, 3600, 7200, 10800],
        a.epoch ≤ p.1 → p.2 = a.value)) :=
  ⟨by decide, by decide,
    c5_water_level_amended rainA waterA [0, 3600, 7200, 10800] 3600
      (by decide) (by decide)⟩

/-! ## C8: timestamp normalization -/

/-- Numeric value of a digit character. -/
def digitVal (c : Char) : Nat := c.toNat - 48

/-- Parsed fields of a `YYYY-MM-DD HH:MM:SS` timestamp. -/
structure DateTimeFields where
  year : Nat
  month : Nat
  day : Nat
  hour : Nat
  minute : Nat
  second : Nat
deriving DecidableEq

/-- Exactly four digits, as strptime's `%Y` regex. -/
def parse_year : List Char → Option (Nat × List Char)
  | a :: b :: c :: d :: rest =>
    if a.isDigit ∧ b.isDigit ∧ c.isDigit ∧ d.isDigit then
      some (1000 * digitVal a + 100 * digitVal b + 10 * digitVal c +
        digitVal d, rest)
    else none
  | _ => none

/-- A one- or two-digit numeric field: two digits are consumed when
their value satisfies `ok2` (the two-digit alternatives of the strptime
field regex), else one digit is consumed when its value satisfies
`ok1`. -/
def parse_field (ok2 ok1 : Nat → Bool) :
    List Char → Option (Nat × List Char)
  | c1 :: c2 :: rest =>
    if c1.isDigit ∧ c2.isDigit ∧ ok2 (10 * digitVal c1 + digitVal c2) then
      some (10 * digitVal c1 + digitVal c2, rest)
    else if c1.isDigit ∧ ok1 (digitVal c1) then
      some (digitVal c1, c2 :: rest)
    else none
  | [c1] =>
    if c1.isDigit ∧ ok1 (digitVal c1) then some (digitVal c1, [])
    else none
  | [] => none

/-- A literal separator character. -/
def expect_char (c : Char) : List Char → Option (List Char)
  | c' :: rest => if c' = c then some rest else none
  | [] => none

/-- The whitespace class of Python's `\s` for text patterns: the ASCII
whitespace characters, the C1 separators, NEL, and the Unicode
whitespace characters (NBSP, Ogham space mark, the U+2000 range, line
and paragraph separators, NNBSP, MMSP, ideographic space). -/
def isPySpace (c : Char) : Bool :=
  c.toNat == 32 || (decide (9 ≤ c.toNat) && decide (c.toNat ≤ 13)) ||
  (decide (28 ≤ c.toNat) && decide (c.toNat ≤ 31)) ||
  c.toNat == 133 || c.toNat == 160 || c.toNat == 5760 ||
  (decide (8192 ≤ c.toNat) && decide (c.toNat ≤ 8202)) ||
  c.toNat == 8232 || c.toNat == 8233 || c.toNat == 8239 ||
  c.toNat == 8287 || c.toNat == 12288

/-- The format's space: CPython's strptime replaces whitespace in the
format with `\s+`, so one or more whitespace characters are consumed
(greedily — the following field starts with a digit, so maximal munch
is exact). -/
def skip_whitespace : List Char → Option (List Char)
  | c :: rest =>
    if isPySpace c then some (rest.dropWhile isPySpace) else none
  | [] => none

/-- strptime's `%d` field, regex `3[0-1]|[1-2]\d|0[1-9]|[1-9]| [1-9]`:
unlike the other fields, a space-padded single digit is also accepted
(the padding is a literal space, inserted after the format's
whitespace-to-`\s+` substitution). -/
def parse_day : List Char → Option (Nat × List Char)
  | ' ' :: c :: rest =>
    if c.isDigit ∧ 1 ≤ digitVal c ∧ digitVal c ≤ 9 then
      some (digitVal c, rest)
    else none
  | cs => parse_field (fun v => decide (1 ≤ v ∧ v ≤ 31))
      (fun v => decide (1 ≤ v ∧ v ≤ 9)) cs

/-- `datetime.strptime(text, '%Y-%m-%d %H:%M:%S')` up to the regex
match, requiring the whole string to be consumed (`unconverted data
remains` otherwise, as for the trailing `.5` of Scenario C).  Per
CPython's strptime the format's space matches any nonempty whitespace
run and the day may be space-padded, so texts not literally of the
shape `YYYY-MM-DD HH:MM:SS` are also accepted. -/
def parse_timestamp (text : String) : Option DateTimeFields := do
  let (y, r1) ← parse_year text.data
  let r2 ← expect_char '-' r1
  let (mo, r3) ← parse_field (fun v => decide (1 ≤ v ∧ v ≤ 12))
    (fun v => decide (1 ≤ v ∧ v ≤ 9)) r2
  let r4 ← expect_char '-' r3
  let (d, r5) ← parse_day r4
  let r6 ← skip_whitespace r5
  let (h, r7) ← parse_field (fun v => decide (v ≤ 23)) (fun _ => true) r6
  let r8 ← expect_char ':' r7
  let (mi, r9) ← parse_field (fun v => decide (v ≤ 59)) (fun _ => true) r8
  let r10 ← expect_char ':' r9
  let (se, r11) ← parse_field (fun v => decide (v ≤ 61)) (fun _ => true) r10
  if r11 = [] then some ⟨y, mo, d, h, mi, se⟩ else none

def is_leap_year (y : Nat) : Bool :=
  y % 4 == 0 && (y % 100 != 0 || y % 400 == 0)

def days_in_month (y m : Nat) : Nat :=
  if m = 2 then (if is_leap_year y then 29 else 28)
  else if m = 4 ∨ m = 6 ∨ m = 9 ∨ m = 11 then 30
  else 31

/-- The range validation of the `datetime` constructor (`MINYEAR = 1`,
day within the month, seconds below 60 — the leap seconds admitted by
the strptime regex are rejected here, again a `ValueError`). -/
def valid_datetime (f : DateTimeFields) : Bool :=
  decide (1 ≤ f.year) && decide (f.year ≤ 9999) &&
  decide (1 ≤ f.month) && decide (f.month ≤ 12) &&
  decide (1 ≤ f.day) && decide (f.day ≤ days_in_month f.year f.month) &&
  decide (f.hour ≤ 23) && decide (f.minute ≤ 59) && decide (f.second ≤ 59)

/-- `datetime.strptime(text, ISO_8601_FORMAT)`: `none` is the
`ValueError` of either the regex match or the constructor. -/
def strptime (text : String) : Option DateTimeFields :=
  match parse_timestamp text with
  | some f => if valid_datetime f then some f else none
  | none => none

/-- Days from 1970-01-01 of a proleptic Gregorian date. -/
def days_from_civil (y m d : Int) : Int :=
  let ya := if m ≤ 2 then y - 1 else y
  let era := ya / 400
  let yoe := ya - era * 400
  let mp := (m + 9) % 12
  let doy := (153 * mp + 2) / 5 + d - 1
  let doe := yoe * 365 + yoe / 4 - yoe / 100 + doy
  era * 146097 + doe - 719468

/-- The parsed local wall-clock time as seconds from the epoch of the
local calendar (before removing the zone's UTC offset). -/
def naive_seconds (f : DateTimeFields) : Int :=
  days_from_civil f.year f.month f.day * 86400 +
    f.hour * 3600 + f.minute * 60 + f.second

/-- One row of `generate_timestamped_rows`: parse the leading text field
with `strptime`, localize with the zone's UTC offset (`tz` maps the
local wall-clock seconds to the offset in seconds, which for historical
zones need not be a whole number), reject a non-whole-second instant
(`epoch.is_integer()`), and otherwise substitute the integer epoch,
passing the remaining fields through unchanged. -/
def normalize_row (tz : Int → ℚ) (ts : String) (rest : List String) :
    Except String (Int × List String) :=
  match strptime ts with
  | none => Except.error ("time data does not match format")
  | some f =>
    if ((naive_seconds f : ℚ) - tz (naive_seconds f)).den = 1 then
      Except.ok (((naive_seconds f : ℚ) - tz (naive_seconds f)).num, rest)
    else Except.error ("Non-integer seconds in datetime")

/-- `generate_timestamped_rows` over a whole row sequence: yields
normalized rows in order, failing at the first invalid row. -/
def generate_timestamped_rows (tz : Int → ℚ) :
    List (String × List String) → Except String (List (Int × List String))
  | [] => Except.ok []
  | (ts, rest) :: rows =>
    match normalize_row tz ts rest with
    | Except.error e => Except.error e
    | Except.ok r =>
      match generate_timestamped_rows tz rows with
      | Except.error e => Except.error e
      | Except.ok rs => Except.ok (r :: rs)

end Spowtd
